import Mathlib

/-!
Shallow embedding of the consensus round pacemaker implemented in
`crates/cfxcore/core/src/pos/consensus/liveness/round_state.rs`.

Modelling conventions:
* `Round = u64` rounds are `Nat`; a panicking unsigned subtraction is
  modelled by `Option` (`none` stands for the overflow panic).
* Durations are `Nat` nanoseconds (`Duration` stores whole nanoseconds, so
  `Duration::from_millis(d) / 2` is exactly `d * 1000000 / 2`).
* The `f64` arithmetic of the exponential time-interval policy is modelled
  exactly over `ℚ`.
* Channel senders and the time service perform I/O and are not part of the
  state; the wall clock enters each operation as an explicit `now` argument.
-/

/-- A reason for starting a new round (source `NewRoundReason`). -/
inductive NewRoundReason where
  | QCReady
  | Timeout
deriving DecidableEq

/-- Event produced when a round starts (source `NewRoundEvent`); `timeout`
is the armed round duration in nanoseconds. -/
structure NewRoundEvent where
  round : Nat
  reason : NewRoundReason
  timeout : Nat
deriving DecidableEq

/-- Modelled from the spec: `PendingVotes` (the crate file
`pending_votes.rs` is not among the analyzed sources). Per the spec it is a
per-round collection with three indexes: votes by ledger-info digest, votes
by author, and a partial timeout-certificate aggregator. Only construction
and emptiness are needed by the round-state claims. -/
structure PendingVotes where
  li_digest_to_votes : List (Nat × List Nat)
  author_to_vote : List (Nat × Nat)
  maybe_partial_tc : Option (List Nat)
deriving DecidableEq

/-- Fresh, empty vote collection (source `PendingVotes::new`). -/
def PendingVotes.new : PendingVotes := ⟨[], [], none⟩

/-- Modelled from the spec: a `Vote` (crate `consensus_types` is not among
the analyzed sources); only the author and the voted round are relevant to
the round state. -/
structure Vote where
  author : Nat
  round : Nat
deriving DecidableEq

/-- Modelled from the spec: `SyncInfo` (crate `consensus_types` is not among
the analyzed sources) carries the highest QC round, the optional highest
timeout certificate (represented by its round), the highest committed round
and the epoch. -/
structure SyncInfo where
  epoch : Nat
  highest_qc_round : Nat
  highest_timeout_certificate : Option Nat
  highest_commit_round : Nat
deriving DecidableEq

/-- Modelled from the spec: `highest_round = max(highest_qc_round,
highest_tc_round)`, the TC hint contributing only when present. -/
def SyncInfo.highestRound (si : SyncInfo) : Nat :=
  max si.highest_qc_round (si.highest_timeout_certificate.getD 0)

/-- Exponential time-interval policy (source `ExponentialTimeInterval`):
`base_ms` in milliseconds, `exponent_base` a rational standing for the
source's `f64`, `max_exponent` the cap on the exponent. -/
structure ExponentialTimeInterval where
  base_ms : Nat
  exponent_base : ℚ
  max_exponent : Nat
deriving DecidableEq

/-- Source `ExponentialTimeInterval::new`: `base` is a duration in
nanoseconds and `base_ms = base.as_millis()`; the two `assert!`s are
modelled by returning `none` (the panic) when `max_exponent < 32` or
`ceil(exponent_base ^ max_exponent) < u32::MAX` is violated. -/
def ExponentialTimeInterval.new (base : Nat) (exponent_base : ℚ)
    (max_exponent : Nat) : Option ExponentialTimeInterval :=
  if max_exponent < 32 ∧ Int.ceil (exponent_base ^ max_exponent) < 4294967295 then
    some ⟨base / 1000000, exponent_base, max_exponent⟩
  else
    none

/-- Source `ExponentialTimeInterval::get_round_duration`: the returned
duration in nanoseconds, i.e. `Duration::from_millis(ceil(base_ms *
exponent_base ^ min(index, max_exponent)))`; the `as u64` cast of a
negative float saturates at zero, matching `Int.toNat`. -/
def ExponentialTimeInterval.getRoundDuration (t : ExponentialTimeInterval)
    (round_index_after_committed_qc : Nat) : Nat :=
  (Int.ceil ((t.base_ms : ℚ) *
    t.exponent_base ^ min round_index_after_committed_qc t.max_exponent)).toNat
    * 1000000

/-- Source `RoundState`. The time-interval policy (`Box<dyn
RoundTimeInterval>`) is a function from round index to a duration in
nanoseconds; channel senders and the time service are I/O and do not appear
in the state. -/
structure RoundState where
  time_interval : Nat → Nat
  highest_committed_round : Nat
  current_round : Nat
  current_round_deadline : Nat
  new_round_sent : Bool
  pending_votes : PendingVotes
  vote_sent : Option Vote

/-- Source `RoundState::new`: both round cursors start at `0`, the deadline
at the current timestamp. -/
def RoundState.new (time_interval : Nat → Nat) (now : Nat) : RoundState :=
  ⟨time_interval, 0, 0, now, false, PendingVotes.new, none⟩

/-- Checked unsigned subtraction: `none` models the overflow panic of `u64`
subtraction below zero. -/
def checkedSub (a b : Nat) : Option Nat :=
  if b ≤ a then some (a - b) else none

/-- Source `RoundState::get_round_index_after_committed_round`: the genesis
branch computes `current_round - 1`, the frontier branch yields `0`, the
general branch computes `current_round - highest_committed_round - 3`. -/
def RoundState.getRoundIndexAfterCommittedRound (s : RoundState) :
    Option Nat :=
  if s.highest_committed_round = 0 then
    checkedSub s.current_round 1
  else if s.current_round < s.highest_committed_round + 3 then
    some 0
  else
    (checkedSub s.current_round s.highest_committed_round).bind fun a =>
      checkedSub a 3

/-- Source `RoundState::setup_deadline`: look up the round duration for the
current round index, set `current_round_deadline = now + timeout`, return
the timeout. -/
def RoundState.setupDeadline (now : Nat) (s : RoundState) :
    Option (Nat × RoundState) :=
  s.getRoundIndexAfterCommittedRound.map fun i =>
    (s.time_interval i,
     {s with current_round_deadline := now + s.time_interval i})

/-- Source `RoundState::setup_timeout`: sets the deadline and hands the time
service a send-task for the local-timeout channel (I/O, not modelled);
returns the timeout. -/
def RoundState.setupTimeout (now : Nat) (s : RoundState) :
    Option (Nat × RoundState) :=
  s.setupDeadline now

/-- Source `RoundState::process_local_timeout`: re-arms the local timeout
and returns `true` unconditionally. -/
def RoundState.processLocalTimeout (now : Nat) (epoch_round : Nat × Nat)
    (s : RoundState) : Option (Bool × RoundState) :=
  (s.setupTimeout now).map fun p => (true, p.2)

/-- First statement of `process_certificates`: raise
`highest_committed_round` to the sync-info hint when the hint is larger. -/
def RoundState.updateHighestCommittedRound (si : SyncInfo) (s : RoundState) :
    RoundState :=
  if s.highest_committed_round < si.highest_commit_round then
    {s with highest_committed_round := si.highest_commit_round}
  else s

/-- Round entry inside `process_certificates`: set `current_round`, clear
`new_round_sent`, replace `pending_votes` with a fresh instance, clear
`vote_sent`. -/
def RoundState.enterRound (newRound : Nat) (s : RoundState) : RoundState :=
  {s with current_round := newRound, new_round_sent := false,
          pending_votes := PendingVotes.new, vote_sent := none}

/-- Source `RoundState::process_certificates`. -/
def RoundState.processCertificates (now : Nat) (si : SyncInfo)
    (s : RoundState) : Option (Option NewRoundEvent × RoundState) :=
  let s1 := s.updateHighestCommittedRound si
  if s1.current_round < si.highestRound + 1 then
    ((s1.enterRound (si.highestRound + 1)).setupTimeout now).map fun p =>
      (some { round := p.2.current_round,
              reason := if si.highest_timeout_certificate = none then
                          NewRoundReason.QCReady
                        else NewRoundReason.Timeout,
              timeout := p.1 }, p.2)
  else
    some (none, s1)

/-- Source `RoundState::record_vote`: store the vote as `vote_sent` iff it
is for the current round. -/
def RoundState.recordVote (v : Vote) (s : RoundState) : RoundState :=
  if v.round = s.current_round then {s with vote_sent := some v} else s

/-- Source `RoundState::setup_new_round_deadline`: half the round duration
of the current round index. -/
def RoundState.setupNewRoundDeadline (s : RoundState) : Option Nat :=
  s.getRoundIndexAfterCommittedRound.map fun i => s.time_interval i / 2

/-- Source `RoundState::setup_new_round_timeout`: `none` when the new-round
timer was already armed this round, otherwise arm it (the send-task is I/O,
not modelled), set `new_round_sent` and return half the round duration. -/
def RoundState.setupNewRoundTimeout (epoch : Nat) (s : RoundState) :
    Option (Option Nat × RoundState) :=
  if s.new_round_sent then some (none, s)
  else
    s.setupNewRoundDeadline.map fun t =>
      (some t, {s with new_round_sent := true})

/-- Run a sequence of `process_certificates` calls, each with its own
wall-clock reading, collecting the emitted new-round events in order; a
panicking call (unreachable for this operation) ends the run. -/
def RoundState.runProcessCertificates :
    List (Nat × SyncInfo) → RoundState → RoundState × List NewRoundEvent
  | [], s => (s, [])
  | (now, si) :: rest, s =>
    match s.processCertificates now si with
    | none => (s, [])
    | some (none, s1) => RoundState.runProcessCertificates rest s1
    | some (some e, s1) =>
      let p := RoundState.runProcessCertificates rest s1
      (p.1, e :: p.2)

/-- One state-mutating operation of `RoundState`, as a relation between the
state before and after. `insert_vote` delegates to `PendingVotes` (whose
verdict logic is outside the analyzed sources) and mutates only the
`pending_votes` field, so it is modelled as an arbitrary replacement of
that field. The `processCerts` step carries the input condition
`highest_commit_round ≤ highestRound` on the supplied `SyncInfo`. -/
inductive RoundState.StepOK : RoundState → RoundState → Prop where
  | processCerts (now : Nat) (si : SyncInfo) (ev : Option NewRoundEvent)
      (s s' : RoundState)
      (hsi : si.highest_commit_round ≤ si.highestRound)
      (h : s.processCertificates now si = some (ev, s')) :
      RoundState.StepOK s s'
  | recordVote (v : Vote) (s : RoundState) :
      RoundState.StepOK s (s.recordVote v)
  | insertVote (pv : PendingVotes) (s : RoundState) :
      RoundState.StepOK s {s with pending_votes := pv}
  | newRoundTimeout (epoch : Nat) (o : Option Nat) (s s' : RoundState)
      (h : s.setupNewRoundTimeout epoch = some (o, s')) :
      RoundState.StepOK s s'
  | localTimeout (now : Nat) (er : Nat × Nat) (b : Bool) (s s' : RoundState)
      (h : s.processLocalTimeout now er = some (b, s')) :
      RoundState.StepOK s s'

/-! ### Field-preservation lemmas -/

@[simp] lemma RoundState.updateHCR_current_round (si : SyncInfo) (s : RoundState) :
    (s.updateHighestCommittedRound si).current_round = s.current_round := by
  unfold RoundState.updateHighestCommittedRound; split <;> rfl

@[simp] lemma RoundState.updateHCR_time_interval (si : SyncInfo) (s : RoundState) :
    (s.updateHighestCommittedRound si).time_interval = s.time_interval := by
  unfold RoundState.updateHighestCommittedRound; split <;> rfl

@[simp] lemma RoundState.updateHCR_hcr (si : SyncInfo) (s : RoundState) :
    (s.updateHighestCommittedRound si).highest_committed_round =
      max s.highest_committed_round si.highest_commit_round := by
  unfold RoundState.updateHighestCommittedRound; split <;> simp <;> omega

@[simp] lemma RoundState.enterRound_current_round (r : Nat) (s : RoundState) :
    (s.enterRound r).current_round = r := rfl

@[simp] lemma RoundState.enterRound_hcr (r : Nat) (s : RoundState) :
    (s.enterRound r).highest_committed_round = s.highest_committed_round := rfl

@[simp] lemma RoundState.enterRound_pending_votes (r : Nat) (s : RoundState) :
    (s.enterRound r).pending_votes = PendingVotes.new := rfl

@[simp] lemma RoundState.enterRound_vote_sent (r : Nat) (s : RoundState) :
    (s.enterRound r).vote_sent = none := rfl

@[simp] lemma RoundState.enterRound_new_round_sent (r : Nat) (s : RoundState) :
    (s.enterRound r).new_round_sent = false := rfl

@[simp] lemma RoundState.enterRound_time_interval (r : Nat) (s : RoundState) :
    (s.enterRound r).time_interval = s.time_interval := rfl

/-- `setup_timeout` (via `setup_deadline`) only moves the deadline. -/
lemma RoundState.setupTimeout_spec {now t : Nat} {s s' : RoundState}
    (h : s.setupTimeout now = some (t, s')) :
    s' = {s with current_round_deadline := now + t} := by
  unfold RoundState.setupTimeout RoundState.setupDeadline at h
  rw [Option.map_eq_some'] at h
  obtain ⟨i, _, hm⟩ := h
  simp only [Prod.mk.injEq] at hm
  rw [← hm.2, ← hm.1]

/-- The round index is defined whenever the genesis branch cannot
underflow. -/
lemma RoundState.getRoundIndex_isSome {s : RoundState}
    (h : s.highest_committed_round = 0 → 1 ≤ s.current_round) :
    ∃ i, s.getRoundIndexAfterCommittedRound = some i := by
  unfold RoundState.getRoundIndexAfterCommittedRound
  split_ifs with h1 h2
  · exact ⟨s.current_round - 1, by unfold checkedSub; rw [if_pos (h h1)]⟩
  · exact ⟨0, rfl⟩
  · refine ⟨s.current_round - s.highest_committed_round - 3, ?_⟩
    unfold checkedSub
    rw [if_pos (by omega)]
    show checkedSub (s.current_round - s.highest_committed_round) 3 = _
    unfold checkedSub
    rw [if_pos (by omega)]

/-- `setup_timeout` succeeds whenever the round index is defined. -/
lemma RoundState.setupTimeout_isSome {s : RoundState} (now : Nat)
    (h : s.highest_committed_round = 0 → 1 ≤ s.current_round) :
    ∃ t s', s.setupTimeout now = some (t, s') := by
  obtain ⟨i, hi⟩ := RoundState.getRoundIndex_isSome h
  exact ⟨s.time_interval i,
         {s with current_round_deadline := now + s.time_interval i},
         by unfold RoundState.setupTimeout RoundState.setupDeadline
            rw [hi]; rfl⟩

/-! ### Characterization of `process_certificates` -/

/-- When `process_certificates` emits an event, the post-state entered the
round `highestRound + 1`, reset the per-round fields, and the event records
the new round and the TC-presence reason. -/
lemma RoundState.pc_advance {now : Nat} {si : SyncInfo} {s s' : RoundState}
    {e : NewRoundEvent}
    (h : s.processCertificates now si = some (some e, s')) :
    s'.current_round = si.highestRound + 1 ∧
    s.current_round < si.highestRound + 1 ∧
    s'.highest_committed_round =
      max s.highest_committed_round si.highest_commit_round ∧
    s'.pending_votes = PendingVotes.new ∧
    s'.vote_sent = none ∧
    s'.new_round_sent = false ∧
    s'.time_interval = s.time_interval ∧
    e.round = s'.current_round ∧
    e.reason = (if si.highest_timeout_certificate = none then
                  NewRoundReason.QCReady else NewRoundReason.Timeout) := by
  unfold RoundState.processCertificates at h
  simp only [] at h
  split at h
  case isTrue hlt =>
    rw [Option.map_eq_some'] at h
    obtain ⟨p, hp, hpe⟩ := h
    obtain ⟨t, s2⟩ := p
    simp only [Prod.mk.injEq, Option.some.injEq] at hpe
    obtain ⟨he, hs⟩ := hpe
    have hspec := RoundState.setupTimeout_spec hp
    subst hs
    subst hspec
    refine ⟨rfl, by simpa using hlt, by simp, rfl, rfl, rfl, by simp, ?_, ?_⟩
    · rw [← he]
    · rw [← he]
  case isFalse =>
    simp only [Option.some.injEq, Prod.mk.injEq] at h
    exact absurd h.1 (by simp)

/-- When `process_certificates` returns no event, the state only absorbed
the committed-round hint and the monotonic guard held. -/
lemma RoundState.pc_noadvance {now : Nat} {si : SyncInfo} {s s' : RoundState}
    (h : s.processCertificates now si = some (none, s')) :
    s' = s.updateHighestCommittedRound si ∧
    si.highestRound + 1 ≤ s.current_round := by
  unfold RoundState.processCertificates at h
  simp only [] at h
  split at h
  case isTrue hlt =>
    rw [Option.map_eq_some'] at h
    obtain ⟨p, _, hpe⟩ := h
    simp only [Prod.mk.injEq] at hpe
    exact absurd hpe.1 (by simp)
  case isFalse hge =>
    simp only [Option.some.injEq, Prod.mk.injEq] at h
    refine ⟨h.2.symm, ?_⟩
    simpa using Nat.le_of_not_lt hge

/-- `process_certificates` never panics: the round entered is at least `1`,
so the genesis branch of the round-index computation cannot underflow. -/
lemma RoundState.pc_isSome (now : Nat) (si : SyncInfo) (s : RoundState) :
    s.processCertificates now si ≠ none := by
  unfold RoundState.processCertificates
  simp only []
  split
  case isTrue =>
    obtain ⟨t, s', hts⟩ :=
      RoundState.setupTimeout_isSome (s := (s.updateHighestCommittedRound si).enterRound
        (si.highestRound + 1)) now (by intro _; simp)
    rw [hts]
    simp
  case isFalse => simp

/-! ### Trace lemmas for sequences of `process_certificates` calls -/

/-- Every event emitted along a run starts a round strictly above the
starting cursor. -/
lemma RoundState.runPC_round_lt (calls : List (Nat × SyncInfo)) :
    ∀ s : RoundState, ∀ e ∈ (RoundState.runProcessCertificates calls s).2,
      s.current_round < e.round := by
  induction calls with
  | nil => intro s e he; simp [RoundState.runProcessCertificates] at he
  | cons c rest ih =>
    obtain ⟨now, si⟩ := c
    intro s e he
    unfold RoundState.runProcessCertificates at he
    cases hpc : s.processCertificates now si with
    | none => rw [hpc] at he; simp at he
    | some p =>
      obtain ⟨oe, s1⟩ := p
      rw [hpc] at he
      cases oe with
      | none =>
        have hni := RoundState.pc_noadvance hpc
        have hcur : s1.current_round = s.current_round := by
          rw [hni.1]; simp
        simp only [] at he
        have := ih s1 e he
        omega
      | some ev =>
        have hadv := RoundState.pc_advance hpc
        simp only [List.mem_cons] at he
        rcases he with he | he
        · subst he
          omega
        · have := ih s1 e he
          omega

/-- The rounds of the events emitted along a run are strictly increasing. -/
lemma RoundState.runPC_pairwise (calls : List (Nat × SyncInfo)) :
    ∀ s : RoundState,
      List.Pairwise (fun a b : NewRoundEvent => a.round < b.round)
        (RoundState.runProcessCertificates calls s).2 := by
  induction calls with
  | nil => intro s; simp [RoundState.runProcessCertificates]
  | cons c rest ih =>
    obtain ⟨now, si⟩ := c
    intro s
    unfold RoundState.runProcessCertificates
    cases hpc : s.processCertificates now si with
    | none => simp
    | some p =>
      obtain ⟨oe, s1⟩ := p
      cases oe with
      | none => exact ih s1
      | some ev =>
        have hadv := RoundState.pc_advance hpc
        rw [List.pairwise_cons]
        refine ⟨?_, ih s1⟩
        intro b hb
        have := RoundState.runPC_round_lt rest s1 b hb
        omega

/-! ### The cursor invariant -/

/-- A single `StepOK` step preserves `highest_committed_round ≤
current_round`. -/
lemma RoundState.stepOK_preserves_inv {s s' : RoundState}
    (hinv : s.highest_committed_round ≤ s.current_round)
    (hs : RoundState.StepOK s s') :
    s'.highest_committed_round ≤ s'.current_round := by
  cases hs with
  | processCerts now si ev s s' hsi h =>
    cases ev with
    | none =>
      obtain ⟨hs', hle⟩ := RoundState.pc_noadvance h
      rw [hs']
      simp only [RoundState.updateHCR_hcr, RoundState.updateHCR_current_round]
      have : si.highest_commit_round ≤ si.highestRound := hsi
      omega
    | some e =>
      have hadv := RoundState.pc_advance h
      have h1 := hadv.1
      have h2 := hadv.2.1
      have h3 := hadv.2.2.1
      omega
  | recordVote v s =>
    unfold RoundState.recordVote
    split <;> exact hinv
  | insertVote pv s => exact hinv
  | newRoundTimeout epoch o s s' h =>
    unfold RoundState.setupNewRoundTimeout at h
    split at h
    · simp only [Option.some.injEq, Prod.mk.injEq] at h
      rw [← h.2]; exact hinv
    · rw [Option.map_eq_some'] at h
      obtain ⟨i, _, hm⟩ := h
      simp only [Prod.mk.injEq] at hm
      rw [← hm.2]
      exact hinv
  | localTimeout now er b s s' h =>
    unfold RoundState.processLocalTimeout at h
    rw [Option.map_eq_some'] at h
    obtain ⟨p, hp, hm⟩ := h
    simp only [Prod.mk.injEq] at hm
    have := RoundState.setupTimeout_spec hp
    rw [← hm.2, this]
    exact hinv

/-- `process_certificates` under the monotonic guard: only the
committed-round hint is absorbed. -/
lemma RoundState.pc_noadvance_eq (now : Nat) (si : SyncInfo) (s : RoundState)
    (hle : si.highestRound + 1 ≤ s.current_round) :
    s.processCertificates now si =
      some (none, s.updateHighestCommittedRound si) := by
  simp only [RoundState.processCertificates]
  rw [if_neg (by simp only [RoundState.updateHCR_current_round]; omega)]

/-! ### Claims -/

/-- C1: for every sequence of `process_certificates` calls on a single
`RoundState` instance starting from the initial state, the rounds of the
returned `NewRoundEvent`s are strictly increasing: each returned event's
round is strictly greater than the round of every event returned
earlier. -/
theorem C1_new_round_events_strictly_increasing (ti : Nat → Nat)
    (now0 : Nat) (calls : List (Nat × SyncInfo)) :
    List.Pairwise (fun a b : NewRoundEvent => a.round < b.round)
      (RoundState.runProcessCertificates calls (RoundState.new ti now0)).2 :=
  RoundState.runPC_pairwise calls (RoundState.new ti now0)

/-- C2: whenever `process_certificates` returns an event, its reason is
`QCReady` exactly when `sync_info.highest_timeout_certificate` is absent and
`Timeout` exactly when it is present — regardless of whether the QC or the
TC round drove the transition. -/
theorem C2_new_round_reason (now : Nat) (si : SyncInfo) (s s' : RoundState)
    (e : NewRoundEvent)
    (h : s.processCertificates now si = some (some e, s')) :
    (e.reason = NewRoundReason.QCReady ↔
       si.highest_timeout_certificate = none) ∧
    (e.reason = NewRoundReason.Timeout ↔
       si.highest_timeout_certificate ≠ none) := by
  have hr := (RoundState.pc_advance h).2.2.2.2.2.2.2.2
  cases hsi : si.highest_timeout_certificate with
  | none => rw [hsi] at hr; simp only [if_pos rfl] at hr; simp [hr, hsi]
  | some tc =>
    rw [hsi] at hr
    simp only [reduceCtorEq, if_neg] at hr
    simp [hr, hsi]

/-- C2 witness: advancing from genesis with a QC-only `SyncInfo` yields the
`QCReady` reason. -/
theorem C2_witness :
    ((⟨1, NewRoundReason.QCReady, 2⟩ : NewRoundEvent).reason =
        NewRoundReason.QCReady ↔
      (⟨0, 0, none, 0⟩ : SyncInfo).highest_timeout_certificate = none) ∧
    ((⟨1, NewRoundReason.QCReady, 2⟩ : NewRoundEvent).reason =
        NewRoundReason.Timeout ↔
      (⟨0, 0, none, 0⟩ : SyncInfo).highest_timeout_certificate ≠ none) :=
  C2_new_round_reason 0 ⟨0, 0, none, 0⟩ (RoundState.new (fun _ => 2) 0)
    ⟨fun _ => 2, 0, 1, 2, false, PendingVotes.new, none⟩
    ⟨1, NewRoundReason.QCReady, 2⟩ rfl

/-- C6: if `process_certificates` returned an event, feeding the same
`SyncInfo` again returns no event: the second call observes
`new_round = highest_round + 1 ≤ current_round` and takes the monotonic
guard, leaving the state unchanged. -/
theorem C6_same_sync_info_twice (now now2 : Nat) (si : SyncInfo)
    (s s' : RoundState) (e : NewRoundEvent)
    (h : s.processCertificates now si = some (some e, s')) :
    s'.processCertificates now2 si = some (none, s') := by
  have hadv := RoundState.pc_advance h
  have hupd : s'.updateHighestCommittedRound si = s' := by
    unfold RoundState.updateHighestCommittedRound
    rw [if_neg]
    have h2 := hadv.2.2.1
    have : si.highest_commit_round ≤ s'.highest_committed_round := by
      rw [h2]; exact le_max_right _ _
    omega
  rw [RoundState.pc_noadvance_eq now2 si s' (le_of_eq hadv.1.symm), hupd]

/-- C6 witness: a concrete genesis advance followed by a repeat of the same
`SyncInfo`. -/
theorem C6_witness :
    RoundState.processCertificates 0 ⟨0, 0, none, 0⟩
      ⟨fun _ => 2, 0, 1, 2, false, PendingVotes.new, none⟩ =
      some (none, ⟨fun _ => 2, 0, 1, 2, false, PendingVotes.new, none⟩) :=
  C6_same_sync_info_twice 0 0 ⟨0, 0, none, 0⟩ (RoundState.new (fun _ => 2) 0)
    ⟨fun _ => 2, 0, 1, 2, false, PendingVotes.new, none⟩
    ⟨1, NewRoundReason.QCReady, 2⟩ rfl

/-- C7: whenever `process_certificates` returns an event, the post-state
has a freshly constructed empty `PendingVotes`, no `vote_sent`, a cleared
`new_round_sent` flag, and the event's round equals the new
`current_round`. -/
theorem C7_round_entry_resets_state (now : Nat) (si : SyncInfo)
    (s s' : RoundState) (e : NewRoundEvent)
    (h : s.processCertificates now si = some (some e, s')) :
    s'.pending_votes = PendingVotes.new ∧
    s'.vote_sent = none ∧
    s'.new_round_sent = false ∧
    e.round = s'.current_round := by
  have hadv := RoundState.pc_advance h
  exact ⟨hadv.2.2.2.1, hadv.2.2.2.2.1, hadv.2.2.2.2.2.1,
         hadv.2.2.2.2.2.2.2.1⟩

/-- C7 witness: the concrete genesis advance resets the per-round fields. -/
theorem C7_witness :
    (⟨fun _ => 2, 0, 1, 2, false, PendingVotes.new, none⟩ :
        RoundState).pending_votes = PendingVotes.new ∧
    (⟨fun _ => 2, 0, 1, 2, false, PendingVotes.new, none⟩ :
        RoundState).vote_sent = none ∧
    (⟨fun _ => 2, 0, 1, 2, false, PendingVotes.new, none⟩ :
        RoundState).new_round_sent = false ∧
    (⟨1, NewRoundReason.QCReady, 2⟩ : NewRoundEvent).round =
      (⟨fun _ => 2, 0, 1, 2, false, PendingVotes.new, none⟩ :
        RoundState).current_round :=
  C7_round_entry_resets_state 0 ⟨0, 0, none, 0⟩ (RoundState.new (fun _ => 2) 0)
    ⟨fun _ => 2, 0, 1, 2, false, PendingVotes.new, none⟩
    ⟨1, NewRoundReason.QCReady, 2⟩ rfl

/-- C10: invoking `process_local_timeout` on a `RoundState` in its initial
state (`current_round = 0`, `highest_committed_round = 0`) takes the genesis
branch of the round-index computation and evaluates `current_round - 1` on
the unsigned round type, which underflows; the operation panics (`none`)
instead of returning `true`. -/
theorem C10_local_timeout_panics_at_initial_state (ti : Nat → Nat)
    (now0 now : Nat) (er : Nat × Nat) :
    (RoundState.new ti now0).processLocalTimeout now er = none := rfl

/-- C3 counterexample: a `SyncInfo` that satisfies the stated input
invariant (`highest_round = max(qc, tc)` holds by construction of
`SyncInfo.highestRound`) but carries `highest_commit_round = 5` drives the
initial state to `current_round = 1 < highest_committed_round = 5` in a
single `process_certificates` call. -/
theorem C3_counterexample :
    ((RoundState.new (fun _ => 0) 0).processCertificates 0
        ⟨0, 0, none, 5⟩).map
        (fun p => (p.2.current_round, p.2.highest_committed_round)) =
      some (1, 5) ∧ ¬ (5 ≤ 1) :=
  ⟨rfl, by omega⟩

/-- C3 (amended): in every state reachable from the initial state by any
sequence of operations in which each `SyncInfo` fed to
`process_certificates` additionally satisfies
`highest_commit_round ≤ highest_round`, the inequality
`highest_committed_round ≤ current_round` holds. -/
theorem C3_committed_round_invariant (ti : Nat → Nat) (now0 : Nat)
    (s : RoundState)
    (h : Relation.ReflTransGen RoundState.StepOK (RoundState.new ti now0) s) :
    s.highest_committed_round ≤ s.current_round := by
  induction h with
  | refl => exact Nat.le_refl 0
  | tail hab hbc ih => exact RoundState.stepOK_preserves_inv ih hbc

/-- C3 witness: the state reached by one genesis advance satisfies the
invariant. -/
theorem C3_witness :
    (⟨fun _ => 2, 0, 1, 2, false, PendingVotes.new, none⟩ :
        RoundState).highest_committed_round ≤
      (⟨fun _ => 2, 0, 1, 2, false, PendingVotes.new, none⟩ :
        RoundState).current_round :=
  C3_committed_round_invariant (fun _ => 2) 0
    ⟨fun _ => 2, 0, 1, 2, false, PendingVotes.new, none⟩
    (Relation.ReflTransGen.single
      (RoundState.StepOK.processCerts 0 ⟨0, 0, none, 0⟩
        (some ⟨1, NewRoundReason.QCReady, 2⟩)
        (RoundState.new (fun _ => 2) 0)
        ⟨fun _ => 2, 0, 1, 2, false, PendingVotes.new, none⟩
        (by decide) rfl))

/-- C5: whenever the genesis branch cannot underflow, the round index
passed to the time-interval policy is `current_round - 1` when
`highest_committed_round = 0`, `0` when
`current_round < highest_committed_round + 3`, and
`current_round - highest_committed_round - 3` otherwise. -/
theorem C5_round_index_formula (s : RoundState)
    (h : s.highest_committed_round = 0 → 1 ≤ s.current_round) :
    s.getRoundIndexAfterCommittedRound =
      some (if s.highest_committed_round = 0 then s.current_round - 1
            else if s.current_round < s.highest_committed_round + 3 then 0
            else s.current_round - s.highest_committed_round - 3) := by
  unfold RoundState.getRoundIndexAfterCommittedRound
  split_ifs with h1 h2
  · unfold checkedSub; rw [if_pos (h h1)]
  · rfl
  · unfold checkedSub
    rw [if_pos (by omega)]
    show checkedSub (s.current_round - s.highest_committed_round) 3 = _
    unfold checkedSub
    rw [if_pos (by omega)]

/-- C5 witness: at `current_round = 3`, `highest_committed_round = 0` the
index is `3 - 1 = 2`. -/
theorem C5_witness :
    RoundState.getRoundIndexAfterCommittedRound
      ⟨fun _ => 0, 0, 3, 0, false, PendingVotes.new, none⟩ = some 2 := by
  have h := C5_round_index_formula
    ⟨fun _ => 0, 0, 3, 0, false, PendingVotes.new, none⟩ (by decide)
  simpa using h

/-- C8: while the genesis branch cannot underflow, `setup_new_round_timeout`
returns `none` exactly when `new_round_sent` is already set; otherwise it
returns half the current round duration and sets the flag, so a second call
in the same round returns `none`. -/
theorem C8_new_round_timeout_once (epoch : Nat) (s : RoundState)
    (h : s.highest_committed_round = 0 → 1 ≤ s.current_round) :
    (s.new_round_sent = true → s.setupNewRoundTimeout epoch = some (none, s)) ∧
    (s.new_round_sent = false →
      s.setupNewRoundTimeout epoch =
        some (some (s.time_interval
                (s.getRoundIndexAfterCommittedRound.getD 0) / 2),
              {s with new_round_sent := true}) ∧
      RoundState.setupNewRoundTimeout epoch {s with new_round_sent := true} =
        some (none, {s with new_round_sent := true})) := by
  obtain ⟨i, hi⟩ := RoundState.getRoundIndex_isSome h
  refine ⟨?_, ?_⟩
  · intro ht
    unfold RoundState.setupNewRoundTimeout
    rw [if_pos ht]
  · intro hf
    refine ⟨?_, ?_⟩
    · unfold RoundState.setupNewRoundTimeout RoundState.setupNewRoundDeadline
      rw [if_neg (by simp [hf]), hi]
      simp
    · unfold RoundState.setupNewRoundTimeout
      rw [if_pos rfl]

/-- C8 witness: at round `1` with a constant `4 ns` policy the first call
returns `2 ns` and arms the flag; the second call returns `none`. -/
theorem C8_witness :
    RoundState.setupNewRoundTimeout 0
        ⟨fun _ => 4, 0, 1, 0, false, PendingVotes.new, none⟩ =
      some (some 2, ⟨fun _ => 4, 0, 1, 0, true, PendingVotes.new, none⟩) ∧
    RoundState.setupNewRoundTimeout 0
        ⟨fun _ => 4, 0, 1, 0, true, PendingVotes.new, none⟩ =
      some (none, ⟨fun _ => 4, 0, 1, 0, true, PendingVotes.new, none⟩) :=
  (C8_new_round_timeout_once 0
    ⟨fun _ => 4, 0, 1, 0, false, PendingVotes.new, none⟩ (by decide)).2 rfl

/-! ### Bounds for the exponential time-interval policy -/

/-- Powers of a growth factor at least `1` are at least `1`. -/
lemma one_le_growth_pow {eb : ℚ} (h : 1 ≤ eb) (k : Nat) : 1 ≤ eb ^ k := by
  induction k with
  | zero => norm_num
  | succ n ih =>
    rw [pow_succ]
    have h0 : (0 : ℚ) ≤ eb ^ n := le_trans zero_le_one ih
    calc (1 : ℚ) = 1 * 1 := by ring
    _ ≤ eb ^ n * eb := mul_le_mul ih h zero_le_one h0

/-- Powers of a growth factor at least `1` are monotone in the exponent. -/
lemma growth_pow_mono {eb : ℚ} (h : 1 ≤ eb) {m n : Nat} (hmn : m ≤ n) :
    eb ^ m ≤ eb ^ n := by
  obtain ⟨k, rfl⟩ := Nat.exists_eq_add_of_le hmn
  rw [pow_add]
  have h2 : (0 : ℚ) ≤ eb ^ m := le_trans zero_le_one (one_le_growth_pow h m)
  calc eb ^ m = eb ^ m * 1 := by ring
  _ ≤ eb ^ m * eb ^ k :=
      mul_le_mul_of_nonneg_left (one_le_growth_pow h k) h2

/-- C4 counterexample: both halves of the claim fail on validly constructed
intervals. With `base = 1 ms`, `exponent_base = 1/2`, `max_exponent = 1`
(accepted by the constructor) the duration at index `0` is `1 ms =
1000000 ns`, which exceeds `base * exponent_base ^ max_exponent =
500000 ns`; and with `base = 0.5 ms` (so `base_ms = 0`) the duration at
index `0` is `0`, which is not positive. -/
theorem C4_counterexample :
    ((ExponentialTimeInterval.new 1000000 (1 / 2) 1).map
        fun t => t.getRoundDuration 0) = some 1000000 ∧
    ¬ ((1000000 : ℚ) ≤ 1000000 * (1 / 2 : ℚ) ^ 1) ∧
    ((ExponentialTimeInterval.new 500000 1 0).map
        fun t => t.getRoundDuration 0) = some 0 := by
  have hc : Int.ceil ((1 / 2 : ℚ) ^ 1) = 1 := by
    rw [pow_one, Int.ceil_eq_iff]
    norm_num
  have hnew1 : ExponentialTimeInterval.new 1000000 (1 / 2) 1 =
      some ⟨1, 1 / 2, 1⟩ := by
    unfold ExponentialTimeInterval.new
    rw [if_pos ⟨by norm_num, by rw [hc]; norm_num⟩]
  have hnew2 : ExponentialTimeInterval.new 500000 1 0 = some ⟨0, 1, 0⟩ := by
    unfold ExponentialTimeInterval.new
    rw [if_pos ⟨by norm_num, by norm_num⟩]
  refine ⟨?_, by norm_num, ?_⟩
  · rw [hnew1]
    simp only [Option.map_some']
    unfold ExponentialTimeInterval.getRoundDuration
    norm_num
  · rw [hnew2]
    simp only [Option.map_some']
    unfold ExponentialTimeInterval.getRoundDuration
    norm_num

/-- C4 (amended): for every validly constructed interval whose growth
factor is at least `1` and whose base is at least one whole millisecond,
every round duration is positive and at most the duration at index
`max_exponent`, i.e. `ceil(base_ms * exponent_base ^ max_exponent)`
milliseconds. -/
theorem C4_round_duration_bounds (base : Nat) (eb : ℚ) (me : Nat)
    (t : ExponentialTimeInterval) (idx : Nat)
    (hnew : ExponentialTimeInterval.new base eb me = some t)
    (heb : 1 ≤ eb) (hbase : 1 ≤ t.base_ms) :
    0 < t.getRoundDuration idx ∧
    t.getRoundDuration idx ≤ t.getRoundDuration t.max_exponent := by
  have hT : t = ⟨base / 1000000, eb, me⟩ := by
    unfold ExponentialTimeInterval.new at hnew
    split at hnew
    · simp only [Option.some.injEq] at hnew
      exact hnew.symm
    · exact absurd hnew (by simp)
  subst hT
  simp only at hbase
  unfold ExponentialTimeInterval.getRoundDuration
  simp only [min_self]
  have hq : (1 : ℚ) ≤ ((base / 1000000 : Nat) : ℚ) := by exact_mod_cast hbase
  have hq0 : (0 : ℚ) ≤ ((base / 1000000 : Nat) : ℚ) :=
    le_trans zero_le_one hq
  constructor
  · have h1 : (1 : ℚ) ≤ ((base / 1000000 : Nat) : ℚ) * eb ^ min idx me := by
      calc (1 : ℚ) = 1 * 1 := by ring
      _ ≤ _ := mul_le_mul hq (one_le_growth_pow heb _) zero_le_one hq0
    have h2 : (1 : ℤ) ≤ Int.ceil (((base / 1000000 : Nat) : ℚ) *
        eb ^ min idx me) := by
      have h3 := Int.le_ceil (((base / 1000000 : Nat) : ℚ) * eb ^ min idx me)
      have h4 : (1 : ℚ) ≤
          ((Int.ceil (((base / 1000000 : Nat) : ℚ) * eb ^ min idx me)) : ℚ) :=
        le_trans h1 h3
      exact_mod_cast h4
    omega
  · have h5 : ((base / 1000000 : Nat) : ℚ) * eb ^ min idx me ≤
        ((base / 1000000 : Nat) : ℚ) * eb ^ me :=
      mul_le_mul_of_nonneg_left (growth_pow_mono heb (min_le_right idx me)) hq0
    have h6 := Int.ceil_mono h5
    have h7 := Int.toNat_le_toNat h6
    exact Nat.mul_le_mul_right _ h7

/-- C4 witness: the interval constructed from `3 ms`, growth factor `2`,
cap `1` has positive durations bounded by the duration at the cap. -/
theorem C4_witness :
    0 < ExponentialTimeInterval.getRoundDuration ⟨3, 2, 1⟩ 5 ∧
    ExponentialTimeInterval.getRoundDuration ⟨3, 2, 1⟩ 5 ≤
      ExponentialTimeInterval.getRoundDuration ⟨3, 2, 1⟩ 1 :=
  C4_round_duration_bounds 3000000 2 1 ⟨3, 2, 1⟩ 5
    (by unfold ExponentialTimeInterval.new
        rw [if_pos ⟨by norm_num, by norm_num⟩])
    (by norm_num) (by norm_num)

/-- C9: construction of `ExponentialTimeInterval` succeeds exactly when
`max_exponent < 32` and `ceil(exponent_base ^ max_exponent)` is strictly
below `u32::MAX`, and fails fast (panics) otherwise. -/
theorem C9_constructor_validation (base : Nat) (eb : ℚ) (me : Nat) :
    (ExponentialTimeInterval.new base eb me).isSome = true ↔
      me < 32 ∧ Int.ceil (eb ^ me) < 4294967295 := by
  unfold ExponentialTimeInterval.new
  split
  case isTrue h => simp [h]
  case isFalse h => simp [h]
